import Mathlib

/-!
Shallow embedding of the coin-collector multiplayer game
(`server.py` / `client.py`): an authoritative server advancing a world of
players and coins on a tick, and a client interpolating buffered snapshots.

Modelling conventions:
* Python floats are modelled as rationals (`ℚ`);
* Python dicts (which iterate in insertion order) are modelled as
  association lists `List (Nat × _)`;
* the random inputs (`random.randint` spawn positions) and wall-clock reads
  (`time.time()`) are passed in as explicit parameters.
-/

namespace CoinGame

/-! ### Configuration constants (`server.py` lines 9-18, `client.py` line 13) -/

def ARTIFICIAL_LATENCY : ℚ := 1/5
def MAP_WIDTH : ℚ := 800
def MAP_HEIGHT : ℚ := 600
def PLAYER_SPEED : ℚ := 300
def PLAYER_SIZE : ℚ := 20
def COIN_SIZE : ℚ := 10
def COIN_SPAWN_RATE : ℚ := 3
def INTERPOLATION_OFFSET : ℚ := 1/10

/-! ### Data model -/

/-- A pending movement direction, as carried in the `direction` field of an
input message (`'UP' | 'DOWN' | 'LEFT' | 'RIGHT'`). -/
inductive Dir
  | UP
  | DOWN
  | LEFT
  | RIGHT
deriving DecidableEq, Repr

/-- Server-side player record, `self.players[pid]` (`server.py` lines 135-141):
`{x, y, color, score, input}`.  `input = none` models Python `None`. -/
structure Player where
  x : ℚ
  y : ℚ
  color : Nat × Nat × Nat
  score : Nat
  input : Option Dir
deriving DecidableEq, Repr

/-- A coin `{id, x, y}` (`server.py` lines 33-37). -/
structure Coin where
  id : Nat
  x : ℚ
  y : ℚ
deriving DecidableEq, Repr

/-- The status tag of a snapshot, plus the client-only `CONNECTING`
placeholder (`client.py` line 49). -/
inductive Status
  | WAITING_FOR_PLAYERS
  | PLAYING
  | CONNECTING
deriving DecidableEq, Repr

/-- The server's mutable world state (`GameServer.__init__`): the players
dict (as an insertion-ordered association list), the live coins, the coin id
counter, the last spawn time and the next player id. -/
structure World where
  players : List (Nat × Player)
  coins : List Coin
  coin_counter : Nat
  last_coin_spawn : ℚ
  next_player_id : Nat
deriving DecidableEq, Repr

/-! ### Server: physics and collisions -/

/-- `max(lo, min(hi, v))`, the clamping idiom of `check_collisions`
(`server.py` lines 45-46). -/
def clampQ (lo hi v : ℚ) : ℚ := max lo (min hi v)

/-- The coin-collision test of `check_collisions` (`server.py` lines 51-55):
the source computes `distance = sqrt(dx*dx + dy*dy)` and tests
`distance < PLAYER_SIZE + COIN_SIZE`; both sides are nonnegative, so this is
equivalent to comparing the squares, which keeps the test inside `ℚ`. -/
def collides (p : Player) (c : Coin) : Bool :=
  decide ((p.x - c.x) * (p.x - c.x) + (p.y - c.y) * (p.y - c.y)
    < (PLAYER_SIZE + COIN_SIZE) * (PLAYER_SIZE + COIN_SIZE))

/-- The movement branch of `GameServer.update` (`server.py` lines 76-81):
the pending input moves the player by `PLAYER_SPEED * dt` along one axis;
`None` (and only `None`) means no movement. -/
def applyInput (dt : ℚ) (p : Player) : Player :=
  match p.input with
  | some Dir.UP => { p with y := p.y - PLAYER_SPEED * dt }
  | some Dir.DOWN => { p with y := p.y + PLAYER_SPEED * dt }
  | some Dir.LEFT => { p with x := p.x - PLAYER_SPEED * dt }
  | some Dir.RIGHT => { p with x := p.x + PLAYER_SPEED * dt }
  | none => p

/-- The wall-collision clamp of `check_collisions` (`server.py` lines 45-46). -/
def clampPlayer (p : Player) : Player :=
  { p with
      x := clampQ PLAYER_SIZE (MAP_WIDTH - PLAYER_SIZE) p.x
      y := clampQ PLAYER_SIZE (MAP_HEIGHT - PLAYER_SIZE) p.y }

/-- `GameServer.check_collisions` (`server.py` lines 41-62) for one player:
clamp the position to the map, then walk the coin list once, incrementing
the score for each coin within collision range and keeping the rest.  The
returned pair is the updated player record and the surviving coin list. -/
def check_collisions (p : Player) (coins : List Coin) : Player × List Coin :=
  let q := clampPlayer p
  ({ q with score := q.score + coins.countP (fun c => collides q c) },
   coins.filter (fun c => !(collides q c)))

/-- A player's post-step record apart from score: input applied, then
clamped.  `check_collisions` produces exactly this plus the score gain. -/
def postPlayer (dt : ℚ) (p : Player) : Player :=
  clampPlayer (applyInput dt p)

/-- The per-player loop of `GameServer.update` (`server.py` lines 75-83):
players are processed in dict (insertion) order; each applies its pending
input and then runs `check_collisions`, which mutates the shared coin list
before the next player is processed. -/
def stepPlayers (dt : ℚ) : List (Nat × Player) → List Coin →
    List (Nat × Player) × List Coin
  | [], coins => ([], coins)
  | pr :: rest, coins =>
    let step := check_collisions (applyInput dt pr.2) coins
    let tail := stepPlayers dt rest step.2
    ((pr.1, step.1) :: tail.1, tail.2)

/-- The coin-spawn gate of `GameServer.update` (`server.py` lines 69-72) plus
`spawn_coin` (lines 32-39): if more than `COIN_SPAWN_RATE` elapsed since the
last spawn, append a coin with the current counter at the (random, here
parameterised) position `cp` and record the spawn time. -/
def maybeSpawn (now : ℚ) (cp : ℚ × ℚ) (w : World) : World :=
  if COIN_SPAWN_RATE < now - w.last_coin_spawn then
    { w with
        coins := w.coins ++ [⟨w.coin_counter, cp.1, cp.2⟩]
        coin_counter := w.coin_counter + 1
        last_coin_spawn := now }
  else w

/-- `GameServer.update` (`server.py` lines 64-83): with fewer than 2 players
return unchanged (lobby mode); otherwise maybe spawn a coin, then run the
per-player movement/collision loop. -/
def update (dt now : ℚ) (cp : ℚ × ℚ) (w : World) : World :=
  if w.players.length < 2 then w
  else
    let w1 := maybeSpawn now cp w
    let res := stepPlayers dt w1.players w1.coins
    { w1 with players := res.1, coins := res.2 }

/-! ### Server: snapshots and inbound input -/

/-- The wire-level state message built by `GameServer.broadcast_state`
(`server.py` lines 89-94): `json.dumps` serialises `self.players` whole, so
each per-player entry is the full `Player` record, `input` field included. -/
structure Snapshot where
  t : ℚ
  players : List (Nat × Player)
  coins : List Coin
  status : Status
deriving DecidableEq, Repr

/-- `GameServer.broadcast_state` (`server.py` lines 85-99): capture the
timestamp, the full players dict, the coins and the status tag. -/
def broadcast_state (now : ℚ) (w : World) : Snapshot :=
  { t := now
    players := w.players
    coins := w.coins
    status := if 2 ≤ w.players.length then Status.PLAYING
              else Status.WAITING_FOR_PLAYERS }

/-- The mutation performed by `handle_client_message` on an input message
(`server.py` line 124): `self.players[pid]['input'] = data['direction']`.
A `pid` not present leaves the world unchanged (in the source a stale id
raises `KeyError`, which the `except` clause swallows; the world is likewise
unchanged). -/
def setInput (pid : Nat) (d : Option Dir) (w : World) : World :=
  { w with
      players := w.players.map
        (fun pr => if pr.1 = pid then (pr.1, { pr.2 with input := d }) else pr) }

/-- An inbound player-intent message: its arrival time at the server, the
player id the connection registry maps the websocket to (`self.clients.get`,
`none` when the connection is unknown), and the `direction` payload. -/
structure InboundMessage where
  arrival : ℚ
  pid : Option Nat
  direction : Option Dir
deriving DecidableEq, Repr

/-- The body of `GameServer.handle_client_message` after its delay
(`server.py` lines 115-124): unknown connections are ignored, otherwise the
player's stored pending input is overwritten. -/
def inputEffect (m : InboundMessage) (w : World) : World :=
  match m.pid with
  | none => w
  | some pid => setInput pid m.direction w

/-- `GameServer.handle_client_message` (`server.py` lines 110-124) opens with
`await asyncio.sleep(ARTIFICIAL_LATENCY)`, so the mutation runs no earlier
than `arrival + ARTIFICIAL_LATENCY`.  `worldVisibleAt` is the world as
observable at wall-clock time `now`: the message's effect is present exactly
when its scheduled execution time has been reached. -/
def worldVisibleAt (m : InboundMessage) (w : World) (now : ℚ) : World :=
  if m.arrival + ARTIFICIAL_LATENCY ≤ now then inputEffect m w else w

/-- `GameServer.register` (`server.py` lines 129-148): allocate the next
player id and insert a fresh player record with the (random, here
parameterised) colour and position, zero score and no pending input. -/
def register (color : Nat × Nat × Nat) (pos : ℚ × ℚ) (w : World) :
    World × Nat :=
  let pid := w.next_player_id
  ({ w with
      players := w.players ++ [(pid, ⟨pos.1, pos.2, color, 0, none⟩)]
      next_player_id := pid + 1 },
   pid)

/-- First player in dict iteration order whose post-step position is within
collision range of coin `c` — the player who claims `c` in a tick, if any. -/
def claimant (dt : ℚ) (ps : List (Nat × Player)) (c : Coin) : Option Nat :=
  (ps.find? (fun pr => collides (postPlayer dt pr.2) c)).map Prod.fst

/-- Total score held by a list of players. -/
def sumScores (ps : List (Nat × Player)) : Nat :=
  (ps.map (fun pr => pr.2.score)).sum

/-! ### Client: snapshot buffer and interpolation (`client.py`) -/

/-- A client snapshot-buffer entry (`client.py` lines 160-164): the parsed
snapshot with the local receive timestamp `recv_time` attached.  The parsed
player entries are the full wire records, i.e. `Player` values. -/
structure BufEntry where
  recv_time : ℚ
  players : List (Nat × Player)
  coins : List Coin
  status : Status
deriving DecidableEq, Repr

/-- A rendered player as consumed by `GameClient.draw` (`client.py` lines
94-104), which reads exactly the `x`, `y`, `color` and `score` fields. -/
structure RPlayer where
  x : ℚ
  y : ℚ
  color : Nat × Nat × Nat
  score : Nat
deriving DecidableEq, Repr

/-- The observable projection of a buffered player record to the fields the
renderer reads. -/
def Player.project (p : Player) : RPlayer :=
  ⟨p.x, p.y, p.color, p.score⟩

/-- The `(players, coins, status)` triple returned by
`GameClient.get_render_state`. -/
structure RenderState where
  players : List (Nat × RPlayer)
  coins : List Coin
  status : Status
deriving DecidableEq, Repr

/-- `GameClient.linear_interpolate` (`client.py` lines 31-32). -/
def linear_interpolate (start finish alpha : ℚ) : ℚ :=
  start + (finish - start) * alpha

/-- The front-trimming loop of `get_render_state` (`client.py` lines 43-44):
`while len(buf) > 2 and buf[1].recv_time < render_time: buf.pop(0)`. -/
def trimBuffer (rt : ℚ) : List BufEntry → List BufEntry
  | e0 :: e1 :: e2 :: rest =>
    if e1.recv_time < rt then trimBuffer rt (e1 :: e2 :: rest)
    else e0 :: e1 :: e2 :: rest
  | buf => buf

/-- The interpolation factor of `get_render_state` (`client.py` lines 54-58):
`alpha = 1` when the receipt-time difference is non-positive, otherwise the
elapsed fraction, and in all cases clamped to `[0, 1]`. -/
def alphaOf (rt : ℚ) (prev next : BufEntry) : ℚ :=
  let td := next.recv_time - prev.recv_time
  let a := if td ≤ 0 then 1 else (rt - prev.recv_time) / td
  max 0 (min 1 a)

/-- The per-player interpolation loop of `get_render_state` (`client.py`
lines 60-78): iterate the `next` snapshot's players in order; a player also
present in `prev` gets lerped coordinates with colour and score from `next`;
a player new in `next` is shown at `next`'s record unchanged. -/
def interpPlayers (alpha : ℚ) (prev next : List (Nat × Player)) :
    List (Nat × RPlayer) :=
  next.map (fun pr =>
    match prev.lookup pr.1 with
    | some pp =>
      (pr.1, ⟨linear_interpolate pp.x pr.2.x alpha,
              linear_interpolate pp.y pr.2.y alpha,
              pr.2.color, pr.2.score⟩)
    | none => (pr.1, pr.2.project))

/-- The branch structure of `get_render_state` after trimming (`client.py`
lines 46-80): with fewer than 2 entries fall back to the latest (or empty)
state, otherwise interpolate between the two oldest remaining entries. -/
def renderFromBuffer (rt : ℚ) : List BufEntry → RenderState
  | [] => ⟨[], [], Status.CONNECTING⟩
  | [e] => ⟨e.players.map (fun pr => (pr.1, pr.2.project)), e.coins, e.status⟩
  | prev :: next :: _ =>
    ⟨interpPlayers (alphaOf rt prev next) prev.players next.players,
     next.coins, next.status⟩

/-- `GameClient.get_render_state` (`client.py` lines 34-80): compute the
render time `now - INTERPOLATION_OFFSET`, trim the buffer from the front,
then render from the remaining entries. -/
def get_render_state (now : ℚ) (buf0 : List BufEntry) : RenderState :=
  renderFromBuffer (now - INTERPOLATION_OFFSET)
    (trimBuffer (now - INTERPOLATION_OFFSET) buf0)

/-! ### Concrete values used by witnesses and counterexamples -/

/-- A player at (100, 100) with no pending input. -/
def pFirst : Player := ⟨100, 100, (60, 70, 80), 0, none⟩

/-- A player at (120, 100) with pending input `RIGHT`. -/
def pSecond : Player := ⟨120, 100, (90, 100, 110), 0, some Dir.RIGHT⟩

/-- A lobby world with a single registered player. -/
def wLobby : World := ⟨[(1, pFirst)], [⟨0, 400, 300⟩], 1, 0, 2⟩

/-- A world with two registered players and one coin at (110, 100), within
collision range (distance 10 and 10 < 30) of both players. -/
def wDuo : World := ⟨[(1, pFirst), (2, pSecond)], [⟨0, 110, 100⟩], 1, 0, 3⟩

/-- Buffered snapshot: player 3 at (100, 100), received at t = 0. -/
def bPrev : BufEntry :=
  ⟨0, [(3, ⟨100, 100, (1, 2, 3), 0, none⟩)], [], Status.PLAYING⟩

/-- Buffered snapshot: player 3 at (200, 100), received at t = 2. -/
def bNext : BufEntry :=
  ⟨2, [(3, ⟨200, 100, (1, 2, 3), 1, none⟩)], [⟨7, 50, 50⟩], Status.PLAYING⟩

/-! ### Basic helper lemmas -/

lemma maybeSpawn_players (now : ℚ) (cp : ℚ × ℚ) (w : World) :
    (maybeSpawn now cp w).players = w.players := by
  unfold maybeSpawn
  split <;> rfl

lemma maybeSpawn_of_not_due (now : ℚ) (cp : ℚ × ℚ) (w : World)
    (h : now - w.last_coin_spawn ≤ COIN_SPAWN_RATE) :
    maybeSpawn now cp w = w := by
  unfold maybeSpawn
  rw [if_neg (not_lt.mpr h)]

lemma update_of_ge_two (dt now : ℚ) (cp : ℚ × ℚ) (w : World)
    (h : 2 ≤ w.players.length) :
    update dt now cp w =
      { maybeSpawn now cp w with
          players := (stepPlayers dt w.players (maybeSpawn now cp w).coins).1
          coins := (stepPlayers dt w.players (maybeSpawn now cp w).coins).2 } := by
  unfold update
  rw [if_neg (by omega)]
  simp only [maybeSpawn_players]

lemma applyInput_score (dt : ℚ) (p : Player) :
    (applyInput dt p).score = p.score := by
  cases h : p.input with
  | none => simp [applyInput, h]
  | some d => cases d <;> simp [applyInput, h]

lemma applyInput_color (dt : ℚ) (p : Player) :
    (applyInput dt p).color = p.color := by
  cases h : p.input with
  | none => simp [applyInput, h]
  | some d => cases d <;> simp [applyInput, h]

lemma applyInput_input (dt : ℚ) (p : Player) :
    (applyInput dt p).input = p.input := by
  cases h : p.input with
  | none => simp [applyInput, h]
  | some d => cases d <;> simp [applyInput, h]

/-- The unit displacement along each axis implied by a pending input: the
four recognised directions each move along exactly one axis, `none` moves
along neither. -/
def dirDelta : Option Dir → ℚ × ℚ
  | some Dir.UP => (0, -1)
  | some Dir.DOWN => (0, 1)
  | some Dir.LEFT => (-1, 0)
  | some Dir.RIGHT => (1, 0)
  | none => (0, 0)

lemma applyInput_x (dt : ℚ) (p : Player) :
    (applyInput dt p).x = p.x + PLAYER_SPEED * dt * (dirDelta p.input).1 := by
  cases h : p.input with
  | none => simp [applyInput, h, dirDelta]
  | some d => cases d <;> (simp [applyInput, h, dirDelta]; try ring)

lemma applyInput_y (dt : ℚ) (p : Player) :
    (applyInput dt p).y = p.y + PLAYER_SPEED * dt * (dirDelta p.input).2 := by
  cases h : p.input with
  | none => simp [applyInput, h, dirDelta]
  | some d => cases d <;> (simp [applyInput, h, dirDelta]; try ring)

/-- The `i`-th player after the per-player loop keeps its key, colour and
pending input, and its position is exactly the post-step (moved, clamped)
position — independent of the coin list threaded through the loop. -/
lemma stepPlayers_get? (dt : ℚ) :
    ∀ (ps : List (Nat × Player)) (cs : List Coin) (i : ℕ) (pr : Nat × Player),
      ps.get? i = some pr →
      ∃ q : Player,
        (stepPlayers dt ps cs).1.get? i = some (pr.1, q) ∧
        q.x = (postPlayer dt pr.2).x ∧
        q.y = (postPlayer dt pr.2).y ∧
        q.color = pr.2.color ∧
        q.input = pr.2.input := by
  intro ps
  induction ps with
  | nil => intro cs i pr h; simp at h
  | cons hd tl ih =>
    intro cs i pr h
    cases i with
    | zero =>
      simp only [List.get?_cons_zero, Option.some.injEq] at h
      subst h
      refine ⟨(check_collisions (applyInput dt hd.2) cs).1, rfl, rfl, rfl, ?_, ?_⟩
      · show (applyInput dt hd.2).color = hd.2.color
        exact applyInput_color dt hd.2
      · show (applyInput dt hd.2).input = hd.2.input
        exact applyInput_input dt hd.2
    | succ n =>
      simp only [List.get?_cons_succ] at h
      exact ih (check_collisions (applyInput dt hd.2) cs).2 n pr h

/-! ### C6: lobby mode is a no-op -/

/-- C6: with fewer than 2 registered players the per-tick `update` is a
no-op — the world (players, coins, counters) is returned unchanged — and
repeating the update (with any tick length, clock value and spawn position)
still yields the identical world. -/
theorem lobby_update_noop (dt now dt' now' : ℚ) (cp cp' : ℚ × ℚ) (w : World)
    (h : w.players.length < 2) :
    update dt now cp w = w ∧
    update dt' now' cp' (update dt now cp w) = w := by
  have h1 : update dt now cp w = w := by
    unfold update
    rw [if_pos h]
  refine ⟨h1, ?_⟩
  rw [h1]
  unfold update
  rw [if_pos h]

/-- Witness for C6 at the concrete single-player world `wLobby`. -/
theorem lobby_update_noop_witness :
    wLobby.players.length < 2 ∧
    update 1 5 (30, 30) wLobby = wLobby ∧
    update 2 9 (40, 40) (update 1 5 (30, 30) wLobby) = wLobby :=
  ⟨by decide, lobby_update_noop 1 5 2 9 (30, 30) (40, 40) wLobby (by decide)⟩

/-! ### C3: movement is along exactly one input-determined axis, clamped -/

/-- C3: in a tick with at least 2 registered players, the `i`-th player's
post-update position is the pre-step position plus `PLAYER_SPEED * dt`
times the unit displacement of its pending input, clamped on each axis into
`[PLAYER_SIZE, dimension - PLAYER_SIZE]`; the displacement is nonzero along
at most one axis (directions are exclusive) and is zero when no input is
pending. -/
theorem update_moves_along_input_axis (dt now : ℚ) (cp : ℚ × ℚ) (w : World)
    (h2 : 2 ≤ w.players.length) (i : ℕ) (pr : Nat × Player)
    (hp : w.players.get? i = some pr) :
    ∃ q : Player,
      (update dt now cp w).players.get? i = some (pr.1, q) ∧
      q.x = clampQ PLAYER_SIZE (MAP_WIDTH - PLAYER_SIZE)
          (pr.2.x + PLAYER_SPEED * dt * (dirDelta pr.2.input).1) ∧
      q.y = clampQ PLAYER_SIZE (MAP_HEIGHT - PLAYER_SIZE)
          (pr.2.y + PLAYER_SPEED * dt * (dirDelta pr.2.input).2) ∧
      ((dirDelta pr.2.input).1 = 0 ∨ (dirDelta pr.2.input).2 = 0) ∧
      (pr.2.input = none → dirDelta pr.2.input = (0, 0)) := by
  rw [update_of_ge_two dt now cp w h2]
  obtain ⟨q, hq, hx, hy, _, _⟩ :=
    stepPlayers_get? dt w.players (maybeSpawn now cp w).coins i pr hp
  refine ⟨q, hq, ?_, ?_, ?_, ?_⟩
  · rw [hx]
    show clampQ PLAYER_SIZE (MAP_WIDTH - PLAYER_SIZE) (applyInput dt pr.2).x = _
    rw [applyInput_x]
  · rw [hy]
    show clampQ PLAYER_SIZE (MAP_HEIGHT - PLAYER_SIZE) (applyInput dt pr.2).y = _
    rw [applyInput_y]
  · cases h : pr.2.input with
    | none => simp [dirDelta]
    | some d => cases d <;> simp [dirDelta]
  · intro h
    rw [h]
    rfl

/-- Witness for C3 at the concrete two-player world `wDuo`, player index 1
(pending input `RIGHT`). -/
theorem update_moves_along_input_axis_witness :
    2 ≤ wDuo.players.length ∧
    wDuo.players.get? 1 = some (2, pSecond) ∧
    (∃ q : Player,
      (update 1 0 (30, 30) wDuo).players.get? 1 = some ((2, pSecond).1, q) ∧
      q.x = clampQ PLAYER_SIZE (MAP_WIDTH - PLAYER_SIZE)
          ((2, pSecond).2.x + PLAYER_SPEED * 1 * (dirDelta (2, pSecond).2.input).1) ∧
      q.y = clampQ PLAYER_SIZE (MAP_HEIGHT - PLAYER_SIZE)
          ((2, pSecond).2.y + PLAYER_SPEED * 1 * (dirDelta (2, pSecond).2.input).2) ∧
      ((dirDelta (2, pSecond).2.input).1 = 0 ∨ (dirDelta (2, pSecond).2.input).2 = 0) ∧
      ((2, pSecond).2.input = none → dirDelta (2, pSecond).2.input = (0, 0))) :=
  ⟨by decide, rfl,
   update_moves_along_input_axis 1 0 (30, 30) wDuo (by decide) 1 (2, pSecond) rfl⟩

/-! ### Coin removal and score accounting -/

/-- The coins surviving the per-player loop are exactly the input coins not
within collision range of any player's post-step position. -/
lemma stepPlayers_coins_eq (dt : ℚ) :
    ∀ (ps : List (Nat × Player)) (cs : List Coin),
      (stepPlayers dt ps cs).2 =
        cs.filter (fun c => ps.all (fun pr => !(collides (postPlayer dt pr.2) c))) := by
  intro ps
  induction ps with
  | nil => intro cs; simp [stepPlayers]
  | cons hd tl ih =>
    intro cs
    show (stepPlayers dt tl (check_collisions (applyInput dt hd.2) cs).2).2 = _
    rw [ih]
    rw [show (check_collisions (applyInput dt hd.2) cs).2
        = cs.filter (fun c => !(collides (postPlayer dt hd.2) c)) from rfl]
    rw [List.filter_filter]
    apply List.filter_congr
    intro c _
    simp [Bool.and_comm]

lemma countP_bnot_add {α : Type} (p : α → Bool) (l : List α) :
    l.countP p + l.countP (fun a => !(p a)) = l.length := by
  induction l with
  | nil => rfl
  | cons a l ih =>
    cases h : p a <;> simp [List.countP_cons, h] <;> omega

/-- Score/coin conservation through the per-player loop: total score gained
equals the number of coins removed — each removed coin increments exactly
one player's score by exactly 1. -/
lemma stepPlayers_conservation (dt : ℚ) :
    ∀ (ps : List (Nat × Player)) (cs : List Coin),
      sumScores (stepPlayers dt ps cs).1 + ((stepPlayers dt ps cs).2).length
        = sumScores ps + cs.length := by
  intro ps
  induction ps with
  | nil => intro cs; rfl
  | cons hd tl ih =>
    intro cs
    have hcons : ∀ (a : Nat × Player) (l : List (Nat × Player)),
        sumScores (a :: l) = a.2.score + sumScores l := by
      intro a l
      simp [sumScores]
    show sumScores ((hd.1, (check_collisions (applyInput dt hd.2) cs).1)
          :: (stepPlayers dt tl (check_collisions (applyInput dt hd.2) cs).2).1)
        + ((stepPlayers dt tl (check_collisions (applyInput dt hd.2) cs).2).2).length
        = sumScores (hd :: tl) + cs.length
    rw [hcons, hcons]
    dsimp only
    have hscore : (check_collisions (applyInput dt hd.2) cs).1.score
        = hd.2.score + cs.countP (fun c => collides (postPlayer dt hd.2) c) := by
      show (applyInput dt hd.2).score + _ = _
      rw [applyInput_score]
      rfl
    have hlen : ((check_collisions (applyInput dt hd.2) cs).2).length
        = cs.countP (fun c => !(collides (postPlayer dt hd.2) c)) := by
      show (cs.filter (fun c => !(collides (postPlayer dt hd.2) c))).length = _
      rw [List.countP_eq_length_filter]
    have hih := ih (check_collisions (applyInput dt hd.2) cs).2
    have hsplit : cs.countP (fun c => collides (postPlayer dt hd.2) c)
        + cs.countP (fun c => !(collides (postPlayer dt hd.2) c)) = cs.length := by
      simpa using countP_bnot_add (fun c => collides (postPlayer dt hd.2) c) cs
    rw [hlen] at hih
    omega

/-! ### C4: a coin is removed iff some player is in range, exactly once -/

/-- C4: in a tick with at least 2 players (and `c` not the coin spawned this
tick, which always carries the fresh id `w.coin_counter`): a live coin is
removed by `update` iff some player's post-movement clamped position is
within strict distance `PLAYER_SIZE + COIN_SIZE` of it; a coin not in the
world can never reappear; and total score increases by exactly the number
of coins removed, so each removal increments exactly one score by 1. -/
theorem coin_removed_iff_in_range (dt now : ℚ) (cp : ℚ × ℚ) (w : World)
    (c : Coin) (h2 : 2 ≤ w.players.length) (hid : c.id ≠ w.coin_counter) :
    (c ∈ w.coins →
      (c ∉ (update dt now cp w).coins ↔
        ∃ pr ∈ w.players, collides (postPlayer dt pr.2) c = true)) ∧
    (c ∉ w.coins → c ∉ (update dt now cp w).coins) ∧
    sumScores (update dt now cp w).players + ((update dt now cp w).coins).length
      = sumScores w.players + ((maybeSpawn now cp w).coins).length := by
  rw [update_of_ge_two dt now cp w h2]
  have hc_cs : c ∈ (maybeSpawn now cp w).coins ↔ c ∈ w.coins := by
    unfold maybeSpawn
    split
    · have hne : c ≠ (⟨w.coin_counter, cp.1, cp.2⟩ : Coin) := by
        intro he
        exact hid (by rw [he])
      simp [List.mem_append, hne]
    · exact Iff.rfl
  have hcoins : (stepPlayers dt w.players (maybeSpawn now cp w).coins).2
      = (maybeSpawn now cp w).coins.filter
          (fun c' => w.players.all (fun pr => !(collides (postPlayer dt pr.2) c'))) :=
    stepPlayers_coins_eq dt w.players (maybeSpawn now cp w).coins
  refine ⟨?_, ?_, ?_⟩
  · intro hcin
    show c ∉ (stepPlayers dt w.players (maybeSpawn now cp w).coins).2 ↔ _
    rw [hcoins]
    constructor
    · intro hnot
      by_contra hnex
      push_neg at hnex
      apply hnot
      rw [List.mem_filter]
      refine ⟨hc_cs.mpr hcin, ?_⟩
      simp only [List.all_eq_true]
      intro pr hpr
      have := hnex pr hpr
      simp only [Bool.not_eq_true] at this ⊢
      simp [this]
    · rintro ⟨pr, hpr, hcol⟩ hmemf
      rw [List.mem_filter] at hmemf
      have hall := (List.all_eq_true.mp hmemf.2) pr hpr
      rw [hcol] at hall
      simp at hall
  · intro hcnot
    show c ∉ (stepPlayers dt w.players (maybeSpawn now cp w).coins).2
    rw [hcoins]
    intro hmemf
    rw [List.mem_filter] at hmemf
    exact hcnot (hc_cs.mp hmemf.1)
  · exact stepPlayers_conservation dt w.players (maybeSpawn now cp w).coins

/-- Witness for C4 at the two-player world `wDuo` and its coin at
`(110, 100)`, which lies within range of both players. -/
theorem coin_removed_iff_in_range_witness :
    2 ≤ wDuo.players.length ∧ (⟨0, 110, 100⟩ : Coin).id ≠ wDuo.coin_counter ∧
    ((⟨0, 110, 100⟩ : Coin) ∈ wDuo.coins →
      ((⟨0, 110, 100⟩ : Coin) ∉ (update 1 0 (30, 30) wDuo).coins ↔
        ∃ pr ∈ wDuo.players, collides (postPlayer 1 pr.2) ⟨0, 110, 100⟩ = true)) ∧
    ((⟨0, 110, 100⟩ : Coin) ∉ wDuo.coins →
      (⟨0, 110, 100⟩ : Coin) ∉ (update 1 0 (30, 30) wDuo).coins) ∧
    sumScores (update 1 0 (30, 30) wDuo).players
        + ((update 1 0 (30, 30) wDuo).coins).length
      = sumScores wDuo.players + ((maybeSpawn 0 (30, 30) wDuo).coins).length := by
  have h := coin_removed_iff_in_range 1 0 (30, 30) wDuo ⟨0, 110, 100⟩
    (by decide) (by decide)
  exact ⟨by decide, by decide, h.1, h.2.1, h.2.2⟩

/-! ### C5: contested coins go to the first player in iteration order -/

lemma claimant_cons_pos (dt : ℚ) (hd : Nat × Player) (tl : List (Nat × Player))
    (c : Coin) (h : collides (postPlayer dt hd.2) c = true) :
    claimant dt (hd :: tl) c = some hd.1 := by
  unfold claimant
  rw [List.find?_cons]
  rw [h]
  rfl

lemma claimant_cons_neg (dt : ℚ) (hd : Nat × Player) (tl : List (Nat × Player))
    (c : Coin) (h : collides (postPlayer dt hd.2) c = false) :
    claimant dt (hd :: tl) c = claimant dt tl c := by
  unfold claimant
  rw [List.find?_cons]
  rw [h]

lemma claimant_mem_keys (dt : ℚ) (ps : List (Nat × Player)) (c : Coin)
    (k : Nat) (h : claimant dt ps c = some k) : k ∈ ps.map Prod.fst := by
  unfold claimant at h
  cases hf : ps.find? (fun pr => collides (postPlayer dt pr.2) c) with
  | none => rw [hf] at h; exact Option.noConfusion h
  | some pr =>
    rw [hf] at h
    have h2 : pr.1 = k := Option.some.inj h
    rw [← h2]
    exact List.mem_map_of_mem _ (List.mem_of_find?_eq_some hf)

/-- Score attribution through the per-player loop: provided player ids are
distinct (as Python dict keys are), the `i`-th player's score grows by
exactly the number of input coins whose first in-range player in iteration
order is that player. -/
lemma stepPlayers_score (dt : ℚ) :
    ∀ (ps : List (Nat × Player)) (cs : List Coin),
      (ps.map Prod.fst).Nodup →
      ∀ (i : ℕ) (pr : Nat × Player), ps.get? i = some pr →
      ∃ q : Player,
        (stepPlayers dt ps cs).1.get? i = some (pr.1, q) ∧
        q.score = pr.2.score
          + cs.countP (fun c => decide (claimant dt ps c = some pr.1)) := by
  intro ps
  induction ps with
  | nil => intro cs _ i pr h; simp at h
  | cons hd tl ih =>
    intro cs hnd i pr h
    rw [List.map_cons, List.nodup_cons] at hnd
    obtain ⟨hk, hnd'⟩ := hnd
    cases i with
    | zero =>
      simp only [List.get?_cons_zero, Option.some.injEq] at h
      subst h
      refine ⟨(check_collisions (applyInput dt hd.2) cs).1, rfl, ?_⟩
      have hsc : (check_collisions (applyInput dt hd.2) cs).1.score
          = hd.2.score + cs.countP (fun c => collides (postPlayer dt hd.2) c) := by
        show (applyInput dt hd.2).score + _ = _
        rw [applyInput_score]
        rfl
      rw [hsc]
      congr 1
      apply List.countP_congr
      intro c _
      simp only [decide_eq_true_eq]
      constructor
      · intro hc
        exact claimant_cons_pos dt hd tl c hc
      · intro hc
        by_contra hneg
        rw [Bool.not_eq_true] at hneg
        rw [claimant_cons_neg dt hd tl c hneg] at hc
        exact hk (claimant_mem_keys dt tl c hd.1 hc)
    | succ n =>
      simp only [List.get?_cons_succ] at h
      obtain ⟨q, hget, hscore⟩ :=
        ih (check_collisions (applyInput dt hd.2) cs).2 hnd' n pr h
      refine ⟨q, hget, ?_⟩
      rw [hscore]
      congr 1
      have hkey : pr.1 ∈ tl.map Prod.fst :=
        List.mem_map_of_mem _ (List.get?_mem h)
      have hkne : hd.1 ≠ pr.1 := fun he => hk (he ▸ hkey)
      show ((cs.filter (fun c => !(collides (postPlayer dt hd.2) c))).countP
          (fun c => decide (claimant dt tl c = some pr.1))) = _
      rw [List.countP_filter]
      apply List.countP_congr
      intro c _
      cases hcol : collides (postPlayer dt hd.2) c with
      | false =>
        simp [claimant_cons_neg dt hd tl c hcol]
      | true =>
        simp [claimant_cons_pos dt hd tl c hcol, hkne]

/-- C5: in a tick with at least 2 players, distinct player ids and no coin
spawned this tick, each player's score after `update` is its prior score
plus the number of live coins whose *first* in-range player in iteration
order is that player — so when several players are in range of the same
coin, only the first one in iteration order scores from it. -/
theorem contested_coin_first_claimant (dt now : ℚ) (cp : ℚ × ℚ) (w : World)
    (h2 : 2 ≤ w.players.length)
    (hnd : (w.players.map Prod.fst).Nodup)
    (hns : now - w.last_coin_spawn ≤ COIN_SPAWN_RATE)
    (i : ℕ) (pr : Nat × Player) (hp : w.players.get? i = some pr) :
    ∃ q : Player,
      (update dt now cp w).players.get? i = some (pr.1, q) ∧
      q.score = pr.2.score
        + w.coins.countP (fun c => decide (claimant dt w.players c = some pr.1)) := by
  rw [update_of_ge_two dt now cp w h2, maybeSpawn_of_not_due now cp w hns]
  exact stepPlayers_score dt w.players w.coins hnd i pr hp

/-- Witness for C5 at `wDuo`: both players are within range of the single
coin at `(110, 100)`; the theorem applies at index 0 (the first player). -/
theorem contested_coin_first_claimant_witness :
    2 ≤ wDuo.players.length ∧ (wDuo.players.map Prod.fst).Nodup ∧
    (0 : ℚ) - wDuo.last_coin_spawn ≤ COIN_SPAWN_RATE ∧
    wDuo.players.get? 0 = some (1, pFirst) ∧
    (∃ q : Player,
      (update 0 0 (30, 30) wDuo).players.get? 0 = some ((1, pFirst).1, q) ∧
      q.score = (1, pFirst).2.score
        + wDuo.coins.countP
            (fun c => decide (claimant 0 wDuo.players c = some (1, pFirst).1))) :=
  ⟨by decide, by decide, by norm_num [wDuo, COIN_SPAWN_RATE], rfl,
   contested_coin_first_claimant 0 0 (30, 30) wDuo (by decide) (by decide)
     (by norm_num [wDuo, COIN_SPAWN_RATE]) 0 (1, pFirst) rfl⟩

/-! ### C9: inbound input delayed by the artificial latency -/

/-- C9: an inbound player-intent message arriving at `m.arrival` has no
visible effect on the world before `m.arrival + ARTIFICIAL_LATENCY`: at any
observation time strictly earlier than that, the world is unchanged. -/
theorem input_invisible_before_delay (m : InboundMessage) (w : World)
    (now : ℚ) (h : now < m.arrival + ARTIFICIAL_LATENCY) :
    worldVisibleAt m w now = w := by
  unfold worldVisibleAt
  rw [if_neg (not_le.mpr h)]

/-- Witness for C9: a message arriving at time 0 is invisible at time 1/10,
halfway through the 200 ms artificial delay. -/
theorem input_invisible_before_delay_witness :
    (1/10 : ℚ) < (0 : ℚ) + ARTIFICIAL_LATENCY ∧
    worldVisibleAt ⟨0, some 1, some Dir.UP⟩ wDuo (1/10) = wDuo :=
  ⟨by norm_num [ARTIFICIAL_LATENCY],
   input_invisible_before_delay ⟨0, some 1, some Dir.UP⟩ wDuo (1/10)
     (by norm_num [ARTIFICIAL_LATENCY])⟩

/-! ### C8: fewer than 2 buffered entries means no interpolation -/

/-- C8: with an empty buffer `get_render_state` returns empty players, empty
coins and the `CONNECTING` placeholder; with exactly one buffered entry it
returns that snapshot's players (projected to the rendered fields), coins
and status verbatim — no interpolation is performed in either case. -/
theorem few_entries_verbatim (now : ℚ) (e : BufEntry) :
    get_render_state now [] = ⟨[], [], Status.CONNECTING⟩ ∧
    get_render_state now [e] =
      ⟨e.players.map (fun pr => (pr.1, pr.2.project)), e.coins, e.status⟩ :=
  ⟨rfl, rfl⟩

/-! ### C1: the wire snapshot does include the pending input -/

/-- Counterexample to C1: two worlds that differ only in one player's
pending input produce different wire-level state messages, so the pending
input is serialised into the snapshot (the source broadcasts the full
`self.players` records). -/
theorem snapshot_includes_input_counterexample :
    setInput 1 (some Dir.UP) wDuo ≠ wDuo ∧
    (setInput 1 (some Dir.UP) wDuo).players.map (fun pr => (pr.1, pr.2.project))
      = wDuo.players.map (fun pr => (pr.1, pr.2.project)) ∧
    broadcast_state 0 (setInput 1 (some Dir.UP) wDuo) ≠ broadcast_state 0 wDuo := by
  refine ⟨by decide, by decide, ?_⟩
  intro h
  have := congrArg (fun s => s.players.lookup 1) h
  simp [broadcast_state, setInput, wDuo, pFirst, pSecond] at this

/-- C1 as amended: each per-player entry of the broadcast snapshot is the
full server-side player record — position, colour, score *and* pending
input — together with the timestamp, the full coin list and the status tag
(`PLAYING` iff at least 2 players are registered). -/
theorem snapshot_contains_full_player_records (now : ℚ) (w : World) :
    (broadcast_state now w).players = w.players ∧
    (broadcast_state now w).coins = w.coins ∧
    (broadcast_state now w).t = now ∧
    ((broadcast_state now w).status = Status.PLAYING ↔ 2 ≤ w.players.length) := by
  refine ⟨rfl, rfl, rfl, ?_⟩
  by_cases h : 2 ≤ w.players.length <;> simp [broadcast_state, h]

/-! ### Interpolation lemmas shared by the render-state claims -/

lemma get_render_state_cons (now : ℚ) (buf0 : List BufEntry)
    (prev next : BufEntry) (rest : List BufEntry)
    (hbuf : trimBuffer (now - INTERPOLATION_OFFSET) buf0 = prev :: next :: rest) :
    get_render_state now buf0 =
      ⟨interpPlayers (alphaOf (now - INTERPOLATION_OFFSET) prev next)
          prev.players next.players,
       next.coins, next.status⟩ := by
  unfold get_render_state
  rw [hbuf]
  rfl

lemma interpPlayers_get? (alpha : ℚ) (prevps nextps : List (Nat × Player))
    (i : ℕ) (pid : Nat) (pn : Player) (hn : nextps.get? i = some (pid, pn))
    (pp : Player) (hp : prevps.lookup pid = some pp) :
    (interpPlayers alpha prevps nextps).get? i =
      some (pid, ⟨linear_interpolate pp.x pn.x alpha,
                  linear_interpolate pp.y pn.y alpha, pn.color, pn.score⟩) := by
  unfold interpPlayers
  rw [List.get?_map, hn]
  simp [hp]

lemma alphaOf_nonneg (rt : ℚ) (prev next : BufEntry) :
    0 ≤ alphaOf rt prev next :=
  le_max_left 0 _

lemma alphaOf_le_one (rt : ℚ) (prev next : BufEntry) :
    alphaOf rt prev next ≤ 1 := by
  unfold alphaOf
  exact max_le (by norm_num) (min_le_left _ _)

lemma alphaOf_of_nonpos (rt : ℚ) (prev next : BufEntry)
    (h : next.recv_time - prev.recv_time ≤ 0) :
    alphaOf rt prev next = 1 := by
  show max 0 (min 1 (if next.recv_time - prev.recv_time ≤ 0 then 1
    else (rt - prev.recv_time) / (next.recv_time - prev.recv_time))) = 1
  rw [if_pos h]
  norm_num

lemma alphaOf_of_pos (rt : ℚ) (prev next : BufEntry)
    (h : 0 < next.recv_time - prev.recv_time) :
    alphaOf rt prev next =
      max 0 (min 1 ((rt - prev.recv_time) / (next.recv_time - prev.recv_time))) := by
  show max 0 (min 1 (if next.recv_time - prev.recv_time ≤ 0 then 1
    else (rt - prev.recv_time) / (next.recv_time - prev.recv_time))) = _
  rw [if_neg (not_le.mpr h)]

lemma linear_interpolate_zero (a b : ℚ) : linear_interpolate a b 0 = a := by
  unfold linear_interpolate
  ring

lemma linear_interpolate_one (a b : ℚ) : linear_interpolate a b 1 = b := by
  unfold linear_interpolate
  ring

lemma linear_interpolate_bounds (a b alpha : ℚ)
    (h0 : 0 ≤ alpha) (h1 : alpha ≤ 1) :
    min a b ≤ linear_interpolate a b alpha ∧
    linear_interpolate a b alpha ≤ max a b := by
  unfold linear_interpolate
  rcases le_total a b with h | h
  · rw [min_eq_left h, max_eq_right h]
    constructor <;> nlinarith
  · rw [min_eq_right h, max_eq_left h]
    constructor <;> nlinarith

/-! ### C2: the interpolation formula and its endpoints -/

/-- C2: when the trimmed buffer has at least 2 entries, a player present in
both bracketing entries is rendered at `prev + (next - prev) * alpha`
componentwise with colour and score taken unblended from `next`, where
`alpha` is `(renderTime - prev.recv) / (next.recv - prev.recv)` clamped to
`[0, 1]` and `alpha = 1` whenever the denominator is non-positive; and
`alpha = 0` reproduces exactly `prev`'s position, `alpha = 1` exactly
`next`'s. -/
theorem interpolation_formula (now : ℚ) (buf0 : List BufEntry)
    (prev next : BufEntry) (rest : List BufEntry)
    (hbuf : trimBuffer (now - INTERPOLATION_OFFSET) buf0 = prev :: next :: rest)
    (i : ℕ) (pid : Nat) (pn : Player)
    (hn : next.players.get? i = some (pid, pn))
    (pp : Player) (hp : prev.players.lookup pid = some pp) :
    (get_render_state now buf0).players.get? i =
      some (pid,
        ⟨linear_interpolate pp.x pn.x (alphaOf (now - INTERPOLATION_OFFSET) prev next),
         linear_interpolate pp.y pn.y (alphaOf (now - INTERPOLATION_OFFSET) prev next),
         pn.color, pn.score⟩) ∧
    0 ≤ alphaOf (now - INTERPOLATION_OFFSET) prev next ∧
    alphaOf (now - INTERPOLATION_OFFSET) prev next ≤ 1 ∧
    (next.recv_time - prev.recv_time ≤ 0 →
      alphaOf (now - INTERPOLATION_OFFSET) prev next = 1) ∧
    (0 < next.recv_time - prev.recv_time →
      alphaOf (now - INTERPOLATION_OFFSET) prev next =
        max 0 (min 1 (((now - INTERPOLATION_OFFSET) - prev.recv_time)
          / (next.recv_time - prev.recv_time)))) ∧
    (alphaOf (now - INTERPOLATION_OFFSET) prev next = 0 →
      linear_interpolate pp.x pn.x (alphaOf (now - INTERPOLATION_OFFSET) prev next) = pp.x ∧
      linear_interpolate pp.y pn.y (alphaOf (now - INTERPOLATION_OFFSET) prev next) = pp.y) ∧
    (alphaOf (now - INTERPOLATION_OFFSET) prev next = 1 →
      linear_interpolate pp.x pn.x (alphaOf (now - INTERPOLATION_OFFSET) prev next) = pn.x ∧
      linear_interpolate pp.y pn.y (alphaOf (now - INTERPOLATION_OFFSET) prev next) = pn.y) := by
  rw [get_render_state_cons now buf0 prev next rest hbuf]
  refine ⟨interpPlayers_get? _ prev.players next.players i pid pn hn pp hp,
    alphaOf_nonneg _ prev next, alphaOf_le_one _ prev next,
    alphaOf_of_nonpos _ prev next, alphaOf_of_pos _ prev next, ?_, ?_⟩
  · intro h
    rw [h]
    exact ⟨linear_interpolate_zero pp.x pn.x, linear_interpolate_zero pp.y pn.y⟩
  · intro h
    rw [h]
    exact ⟨linear_interpolate_one pp.x pn.x, linear_interpolate_one pp.y pn.y⟩

/-- Witness for C2: buffer `[bPrev, bNext]` (receipt times 0 and 2) rendered
at `now = 11/10`, player 3 present in both entries. -/
theorem interpolation_formula_witness :
    trimBuffer ((11/10 : ℚ) - INTERPOLATION_OFFSET) [bPrev, bNext]
      = bPrev :: bNext :: [] ∧
    bNext.players.get? 0 = some (3, ⟨200, 100, (1, 2, 3), 1, none⟩) ∧
    bPrev.players.lookup 3 = some ⟨100, 100, (1, 2, 3), 0, none⟩ ∧
    ((get_render_state (11/10) [bPrev, bNext]).players.get? 0 =
      some (3,
        ⟨linear_interpolate (100 : ℚ) 200
            (alphaOf ((11/10 : ℚ) - INTERPOLATION_OFFSET) bPrev bNext),
         linear_interpolate (100 : ℚ) 100
            (alphaOf ((11/10 : ℚ) - INTERPOLATION_OFFSET) bPrev bNext),
         (1, 2, 3), 1⟩) ∧
      0 ≤ alphaOf ((11/10 : ℚ) - INTERPOLATION_OFFSET) bPrev bNext ∧
      alphaOf ((11/10 : ℚ) - INTERPOLATION_OFFSET) bPrev bNext ≤ 1 ∧
      (bNext.recv_time - bPrev.recv_time ≤ 0 →
        alphaOf ((11/10 : ℚ) - INTERPOLATION_OFFSET) bPrev bNext = 1) ∧
      (0 < bNext.recv_time - bPrev.recv_time →
        alphaOf ((11/10 : ℚ) - INTERPOLATION_OFFSET) bPrev bNext =
          max 0 (min 1 ((((11/10 : ℚ) - INTERPOLATION_OFFSET) - bPrev.recv_time)
            / (bNext.recv_time - bPrev.recv_time)))) ∧
      (alphaOf ((11/10 : ℚ) - INTERPOLATION_OFFSET) bPrev bNext = 0 →
        linear_interpolate (100 : ℚ) 200
            (alphaOf ((11/10 : ℚ) - INTERPOLATION_OFFSET) bPrev bNext) = 100 ∧
        linear_interpolate (100 : ℚ) 100
            (alphaOf ((11/10 : ℚ) - INTERPOLATION_OFFSET) bPrev bNext) = 100) ∧
      (alphaOf ((11/10 : ℚ) - INTERPOLATION_OFFSET) bPrev bNext = 1 →
        linear_interpolate (100 : ℚ) 200
            (alphaOf ((11/10 : ℚ) - INTERPOLATION_OFFSET) bPrev bNext) = 200 ∧
        linear_interpolate (100 : ℚ) 100
            (alphaOf ((11/10 : ℚ) - INTERPOLATION_OFFSET) bPrev bNext) = 100)) :=
  ⟨rfl, rfl, rfl,
   interpolation_formula (11/10) [bPrev, bNext] bPrev bNext [] rfl 0 3
     ⟨200, 100, (1, 2, 3), 1, none⟩ rfl ⟨100, 100, (1, 2, 3), 0, none⟩ rfl⟩

/-! ### C10: the renderer never extrapolates outside the segment -/

/-- C10: when the trimmed buffer has at least 2 entries, a player present in
both bracketing entries is rendered with each coordinate inside the closed
interval spanned by its coordinates in the two entries — clamping `alpha`
to `[0, 1]` means no extrapolation beyond the segment. -/
theorem interpolation_no_extrapolation (now : ℚ) (buf0 : List BufEntry)
    (prev next : BufEntry) (rest : List BufEntry)
    (hbuf : trimBuffer (now - INTERPOLATION_OFFSET) buf0 = prev :: next :: rest)
    (i : ℕ) (pid : Nat) (pn : Player)
    (hn : next.players.get? i = some (pid, pn))
    (pp : Player) (hp : prev.players.lookup pid = some pp) :
    ∃ rp : RPlayer,
      (get_render_state now buf0).players.get? i = some (pid, rp) ∧
      min pp.x pn.x ≤ rp.x ∧ rp.x ≤ max pp.x pn.x ∧
      min pp.y pn.y ≤ rp.y ∧ rp.y ≤ max pp.y pn.y := by
  rw [get_render_state_cons now buf0 prev next rest hbuf]
  have h0 := alphaOf_nonneg (now - INTERPOLATION_OFFSET) prev next
  have h1 := alphaOf_le_one (now - INTERPOLATION_OFFSET) prev next
  obtain ⟨hx1, hx2⟩ := linear_interpolate_bounds pp.x pn.x _ h0 h1
  obtain ⟨hy1, hy2⟩ := linear_interpolate_bounds pp.y pn.y _ h0 h1
  exact ⟨_, interpPlayers_get? _ prev.players next.players i pid pn hn pp hp,
    hx1, hx2, hy1, hy2⟩

/-- Witness for C10 at the same concrete buffer as the C2 witness. -/
theorem interpolation_no_extrapolation_witness :
    trimBuffer ((11/10 : ℚ) - INTERPOLATION_OFFSET) [bPrev, bNext]
      = bPrev :: bNext :: [] ∧
    bNext.players.get? 0 = some (3, ⟨200, 100, (1, 2, 3), 1, none⟩) ∧
    bPrev.players.lookup 3 = some ⟨100, 100, (1, 2, 3), 0, none⟩ ∧
    (∃ rp : RPlayer,
      (get_render_state (11/10) [bPrev, bNext]).players.get? 0 = some (3, rp) ∧
      min (100 : ℚ) 200 ≤ rp.x ∧ rp.x ≤ max (100 : ℚ) 200 ∧
      min (100 : ℚ) 100 ≤ rp.y ∧ rp.y ≤ max (100 : ℚ) 100) :=
  ⟨rfl, rfl, rfl,
   interpolation_no_extrapolation (11/10) [bPrev, bNext] bPrev bNext [] rfl 0 3
     ⟨200, 100, (1, 2, 3), 1, none⟩ rfl ⟨100, 100, (1, 2, 3), 0, none⟩ rfl⟩

/-! ### C7: front-trimming keeps 2 entries and the bracketing pair -/

/-- C7: the front-trimming loop pops entries only from the front (the
result is a suffix `buf.drop k`), never trims a buffer of at most 2 entries,
never leaves fewer than 2 entries when at least 2 were present, and every
popped entry has a successor whose receipt time is still older than the
render time — so the popped entry was not needed to bracket the render
time. -/
theorem trim_preserves_bracketing (rt : ℚ) (buf : List BufEntry) :
    (2 ≤ buf.length → 2 ≤ (trimBuffer rt buf).length) ∧
    (buf.length ≤ 2 → trimBuffer rt buf = buf) ∧
    ∃ k, trimBuffer rt buf = buf.drop k ∧
      ∀ i, i < k → ∃ h : i + 1 < buf.length,
        (buf.get ⟨i + 1, h⟩).recv_time < rt := by
  induction buf with
  | nil =>
    exact ⟨fun h => h, fun _ => rfl, 0, rfl, fun i hi => absurd hi (by omega)⟩
  | cons e0 tl ih =>
    rcases tl with _ | ⟨e1, tl2⟩
    · exact ⟨fun h => h, fun _ => rfl, 0, rfl, fun i hi => absurd hi (by omega)⟩
    rcases tl2 with _ | ⟨e2, rest⟩
    · exact ⟨fun h => h, fun _ => rfl, 0, rfl, fun i hi => absurd hi (by omega)⟩
    by_cases hc : e1.recv_time < rt
    · have heq : trimBuffer rt (e0 :: e1 :: e2 :: rest)
          = trimBuffer rt (e1 :: e2 :: rest) := by
        show (if e1.recv_time < rt then trimBuffer rt (e1 :: e2 :: rest)
          else e0 :: e1 :: e2 :: rest) = _
        rw [if_pos hc]
      obtain ⟨hlen, _, k, hdrop, hcond⟩ := ih
      refine ⟨?_, ?_, k + 1, ?_, ?_⟩
      · intro _
        rw [heq]
        exact hlen (by simp only [List.length_cons]; omega)
      · intro habs
        simp only [List.length_cons] at habs
        omega
      · rw [heq, hdrop]
        rfl
      · intro i hi
        cases i with
        | zero =>
          refine ⟨by simp only [List.length_cons]; omega, ?_⟩
          exact hc
        | succ j =>
          have hj : j < k := by omega
          obtain ⟨hlt, hrec⟩ := hcond j hj
          refine ⟨by simp only [List.length_cons] at hlt ⊢; omega, ?_⟩
          exact hrec
    · have heq : trimBuffer rt (e0 :: e1 :: e2 :: rest)
          = e0 :: e1 :: e2 :: rest := by
        show (if e1.recv_time < rt then trimBuffer rt (e1 :: e2 :: rest)
          else e0 :: e1 :: e2 :: rest) = _
        rw [if_neg hc]
      refine ⟨?_, fun _ => heq, 0, heq, fun i hi => absurd hi (by omega)⟩
      intro h
      rw [heq]
      exact h

/-- Witness for C7 at a concrete 2-entry buffer and render time. -/
theorem trim_preserves_bracketing_witness :
    (2 ≤ ([bPrev, bNext] : List BufEntry).length →
      2 ≤ (trimBuffer 1 [bPrev, bNext]).length) ∧
    (([bPrev, bNext] : List BufEntry).length ≤ 2 →
      trimBuffer 1 [bPrev, bNext] = [bPrev, bNext]) ∧
    ∃ k, trimBuffer 1 [bPrev, bNext] = ([bPrev, bNext] : List BufEntry).drop k ∧
      ∀ i, i < k → ∃ h : i + 1 < ([bPrev, bNext] : List BufEntry).length,
        (([bPrev, bNext] : List BufEntry).get ⟨i + 1, h⟩).recv_time < 1 :=
  trim_preserves_bracketing 1 [bPrev, bNext]

end CoinGame
